import Mathlib

/-!
Shallow embedding of the pure logic of the `mkcollage` repository
(`mkcollage/layout.py` and `mkcollage/image_ops.py`).

Modelling conventions:
* Python `float` values (aspect ratios and the intermediate real arithmetic)
  are modelled as exact rationals `ℚ`.
* Python `int(x)` truncates toward zero: `pyInt`.
* Python `//` on integers is floor division: `Int.fdiv`.
* Python truthiness of optional integer arguments (`if columns:` is false for
  both `None` and `0`) is modelled by `truthyZ` / `truthyN`.
* `math.ceil(num_images / cols)` and `math.ceil(math.sqrt(n))` are modelled by
  exact natural-number ceilings (`ceil_div`, `ceil_sqrt`).
* `print` calls have no effect on the returned values and are dropped; the
  warning printed by `apply_image_sampling` is modelled as a `warned` flag.
-/

namespace Mkcollage

/-- Python `int(x)` applied to a real value: truncation toward zero. -/
def pyInt (x : ℚ) : ℤ := if 0 ≤ x then ⌊x⌋ else ⌈x⌉

/-- Python truthiness of an optional integer (`None` and `0` are falsy). -/
def truthyZ : Option ℤ → Bool
  | none => false
  | some n => n != 0

/-- Python truthiness of an optional natural number. -/
def truthyN : Option ℕ → Bool
  | none => false
  | some n => n != 0

/-- Exact value of Python `math.ceil(a / b)` for naturals. -/
def ceil_div (a b : ℕ) : ℕ := (a + b - 1) / b

/-- Exact value of Python `math.ceil(math.sqrt (n))` for a natural `n`. -/
def ceil_sqrt (n : ℕ) : ℕ :=
  if Nat.sqrt n * Nat.sqrt n = n then Nat.sqrt n else Nat.sqrt n + 1

/-- Step 1 of `calculate_grid_layout` (layout.py lines 51-61): determine the
grid dimensions `(cols, rows)` from `num_images`, `columns` and `max_rows`. -/
def gridShape (num_images : ℕ) (columns max_rows : Option ℕ) : ℕ × ℕ :=
  if truthyN columns then
    let cols := columns.getD 0
    if truthyN max_rows then
      (cols, min (max_rows.getD 0) (ceil_div num_images cols))
    else
      (cols, ceil_div num_images cols)
  else
    let cols := ceil_sqrt num_images
    (cols, ceil_div num_images cols)

/-- The cols/rows swap of the auto branch (layout.py lines 89-97): if the grid
aspect ratio and the cols/rows orientation disagree, swap cols and rows. -/
def autoSwap (cols rows : ℕ) (aspect_ratio : ℚ) : ℕ × ℕ :=
  let grid_aspect_ratio : ℚ := ((cols : ℚ) / (rows : ℚ)) * aspect_ratio
  if 1 < grid_aspect_ratio ∧ cols < rows then (rows, cols)
  else if grid_aspect_ratio < 1 ∧ rows < cols then (rows, cols)
  else (cols, rows)

/-- The grid shape actually used from step 2 on: `gridShape`, with `autoSwap`
applied exactly in the branch that performs it in the source (neither `width`
nor `height` nor `columns` truthy). -/
def finalShape (num_images : ℕ) (aspect_ratio : ℚ) (width height : Option ℤ)
    (columns max_rows : Option ℕ) : ℕ × ℕ :=
  let s := gridShape num_images columns max_rows
  if truthyZ width || truthyZ height || truthyN columns then s
  else autoSwap s.1 s.2 aspect_ratio

/-- The `GridLayout` dataclass of layout.py. -/
structure GridLayout where
  canvas_width : ℤ
  canvas_height : ℤ
  cols : ℤ
  rows : ℤ
  cell_width : ℤ
  cell_height : ℤ
  padding : ℤ
  offset_x : ℤ
  offset_y : ℤ
  deriving Repr, DecidableEq

/-- Step 2 of `calculate_grid_layout` (layout.py lines 63-118): the initial
canvas dimensions `(canvas_width, canvas_height)`.  `c`/`r` are the (already
swapped, where applicable) grid dimensions. -/
def canvasDims (aspect_ratio : ℚ) (padding sz : ℤ) (width height : Option ℤ)
    (columns : Option ℕ) (c r : ℤ) : ℤ × ℤ :=
  if truthyZ width && truthyZ height then
    (width.getD 0, height.getD 0)
  else if truthyZ width then
    let canvas_width := width.getD 0
    let cell_width := Int.fdiv (canvas_width - (c + 1) * padding) c
    let cell_height := pyInt ((cell_width : ℚ) / aspect_ratio)
    (canvas_width, r * cell_height + (r + 1) * padding)
  else if truthyZ height then
    let canvas_height := height.getD 0
    let cell_height := Int.fdiv (canvas_height - (r + 1) * padding) r
    let cell_width := pyInt ((cell_height : ℚ) * aspect_ratio)
    (c * cell_width + (c + 1) * padding, canvas_height)
  else if truthyN columns then
    if 1 ≤ aspect_ratio then (sz, pyInt ((sz : ℚ) / aspect_ratio))
    else (pyInt ((sz : ℚ) * aspect_ratio), sz)
  else
    let grid_aspect_ratio : ℚ := ((c : ℚ) / (r : ℚ)) * aspect_ratio
    if 1 ≤ grid_aspect_ratio then (sz, pyInt ((sz : ℚ) / grid_aspect_ratio))
    else (pyInt ((sz : ℚ) * grid_aspect_ratio), sz)

/-- `calculate_grid_layout` (layout.py lines 27-149).  Steps: default `size`,
grid shape (with the auto-branch swap), initial canvas dimensions, the final
cell-size normalization (lines 120-123) and the height reconciliation
(lines 125-128). -/
def calculate_grid_layout (num_images : ℕ) (aspect_ratio : ℚ) (padding : ℤ)
    (size width height : Option ℤ) (columns max_rows : Option ℕ) : GridLayout :=
  let sz : ℤ := size.getD 1920
  let s := finalShape num_images aspect_ratio width height columns max_rows
  let c : ℤ := (s.1 : ℤ)
  let r : ℤ := (s.2 : ℤ)
  let dims := canvasDims aspect_ratio padding sz width height columns c r
  let cell_width := Int.fdiv (dims.1 - (c + 1) * padding) c
  let cell_height := pyInt ((cell_width : ℚ) / aspect_ratio)
  let canvas_height := if truthyZ height then dims.2
    else r * cell_height + (r + 1) * padding
  { canvas_width := dims.1
    canvas_height := canvas_height
    cols := c
    rows := r
    cell_width := cell_width
    cell_height := cell_height
    padding := padding
    offset_x := 0
    offset_y := 0 }

/-- The interior index of iteration `i` of the sampling loop in
`sample_images` (image_ops.py line 180): `int(1 + i * step + step / 2)` with
`step = (n - 2) / (max_count - 2)`. -/
def sampleIdx (n max_count i : ℕ) : ℤ :=
  let step : ℚ := ((n : ℚ) - 2) / ((max_count : ℚ) - 2)
  pyInt (1 + (i : ℚ) * step + step / 2)

/-- The interior indices kept by the sampling loop (image_ops.py lines
179-182): index `sampleIdx n max_count i` for `i < max_count - 2`, kept only
when it passes the defensive clamp `idx < n - 1`. -/
def sampleIndices (n max_count : ℕ) : List ℤ :=
  (List.range (max_count - 2)).filterMap fun i =>
    let idx := sampleIdx n max_count i
    if idx < (n : ℤ) - 1 then some idx else none

/-- `sample_images` (image_ops.py lines 151-187).  Out-of-range indexing
(which would raise in Python but is proved unreachable below) is totalized
with `List.getD`. -/
def sample_images {α : Type} [Inhabited α] (image_files : List α)
    (max_count : ℕ) : List α :=
  if image_files.length ≤ max_count then image_files
  else if max_count < 2 then image_files.take max_count
  else
    let middle : List α :=
      if 2 < max_count then
        (sampleIndices image_files.length max_count).map
          fun idx => image_files.getD idx.toNat default
      else []
    (image_files.headD default :: middle) ++ [image_files.getLastD default]

/-- The tuple returned by `apply_image_sampling`; the warning it prints in the
`max_rows`-without-`columns` branch is modelled by the `warned` flag. -/
structure SamplingResult (α : Type) where
  files : List α
  is_sampled : Bool
  total_count : ℕ
  warned : Bool
  deriving Repr, DecidableEq

/-- `apply_image_sampling` (image_ops.py lines 190-215). -/
def apply_image_sampling {α : Type} [Inhabited α] (image_files : List α)
    (columns max_rows : Option ℕ) : SamplingResult α :=
  let total_image_count := image_files.length
  if truthyN max_rows && truthyN columns then
    let max_images := columns.getD 0 * max_rows.getD 0
    if max_images < image_files.length then
      ⟨sample_images image_files max_images, true, total_image_count, false⟩
    else
      ⟨image_files, false, total_image_count, false⟩
  else if truthyN max_rows && !truthyN columns then
    ⟨image_files, false, total_image_count, true⟩
  else
    ⟨image_files, false, total_image_count, false⟩

/-- The distinct elements of a list in order of first occurrence: the key
order of a Python `Counter` built from the list. -/
def firstOccurrences : List ℚ → List ℚ
  | [] => []
  | x :: xs => x :: (firstOccurrences xs).filter (fun y => y != x)

/-- Scan of candidate modal values: Python `Counter.most_common` sorts by
count descending with a stable sort over insertion order, so a later
candidate replaces the current best only when its count is strictly
larger. -/
def argmaxCount (l : List ℚ) : List ℚ → ℚ → ℚ
  | [], best => best
  | x :: xs, best =>
    if l.count best < l.count x then argmaxCount l xs x
    else argmaxCount l xs best

/-- `Counter(l).most_common(1)[0][0]` (image_ops.py lines 87-88): the most
frequent element of `l`, ties broken by first occurrence. -/
def mostCommon (l : List ℚ) : ℚ :=
  match firstOccurrences l with
  | [] => 0
  | x :: xs => argmaxCount l xs x

/-- The `common_ratios` dict of image_ops.py lines 94-104, in insertion
order. -/
def common_ratios : List (ℚ × (ℚ × ℚ)) :=
  [(1.33, (4, 3)), (1.78, (16, 9)), (1.77, (16, 9)), (1.60, (16, 10)),
   (1.50, (3, 2)), (1.00, (1, 1)), (0.75, (3, 4)), (0.67, (2, 3)),
   (0.56, (9, 16))]

/-- Exact-key lookup in an association list: Python `common_ratios[closest]`
(image_ops.py line 109). -/
def dict_lookup (k : ℚ) : List (ℚ × (ℚ × ℚ)) → Option (ℚ × ℚ)
  | [] => none
  | (key, p) :: rest => if k = key then some p else dict_lookup k rest

/-- `min(common_ratios.keys(), key=lambda x: abs(x - m))` (image_ops.py line
107): Python `min` keeps the earliest element among ties, so a later key
replaces the best only when strictly closer. -/
def closestKey (m : ℚ) : List ℚ → ℚ → ℚ
  | [], best => best
  | k :: ks, best =>
    if |k - m| < |best - m| then closestKey m ks k
    else closestKey m ks best

/-- The pure core of `determine_common_aspect_ratio` (image_ops.py lines
86-116), applied to the list of successfully collected, 2-decimal-rounded
aspect ratios.  Returns `(width_ratio, height_ratio, most_common_ratio)`.
Python `min` over the dict keys in insertion order starts from the first key
`1.33` and scans the remaining eight. -/
def determine_common_aspect_ratio (aspect_ratios : List ℚ) : ℚ × ℚ × ℚ :=
  let most_common_ratio := mostCommon aspect_ratios
  let closest_ratio := closestKey most_common_ratio
    [(1.78 : ℚ), 1.77, 1.60, 1.50, 1.00, 0.75, 0.67, 0.56] 1.33
  if |closest_ratio - most_common_ratio| < 1/10 then
    let p := (dict_lookup closest_ratio common_ratios).getD (0, 0)
    (p.1, p.2, most_common_ratio)
  else
    (most_common_ratio, 1, most_common_ratio)

/-! ### Helper lemmas -/

lemma le_mul_ceil_div {n b : ℕ} (hb : 1 ≤ b) : n ≤ b * ceil_div n b := by
  have h1 := Nat.div_add_mod (n + b - 1) b
  have h2 : (n + b - 1) % b < b := Nat.mod_lt _ hb
  unfold ceil_div
  omega

lemma ceil_div_pos {n b : ℕ} (hn : 1 ≤ n) (hb : 1 ≤ b) : 1 ≤ ceil_div n b := by
  unfold ceil_div
  rw [Nat.one_le_div_iff hb]
  omega

lemma ceil_sqrt_pos {n : ℕ} (hn : 1 ≤ n) : 1 ≤ ceil_sqrt n := by
  unfold ceil_sqrt
  split
  · rename_i hsq
    rcases Nat.eq_zero_or_pos (Nat.sqrt n) with h0 | h1
    · rw [h0] at hsq
      omega
    · exact h1
  · omega

lemma truthyN_getD {o : Option ℕ} (h : truthyN o = true) : 1 ≤ o.getD 0 := by
  cases o with
  | none => simp [truthyN] at h
  | some v =>
    simp [truthyN] at h
    simpa using Nat.one_le_iff_ne_zero.mpr h

lemma gridShape_pos {n : ℕ} (hn : 1 ≤ n) (columns max_rows : Option ℕ) :
    1 ≤ (gridShape n columns max_rows).1 ∧ 1 ≤ (gridShape n columns max_rows).2 := by
  unfold gridShape
  by_cases hc : truthyN columns = true
  · have hc1 := truthyN_getD hc
    by_cases hm : truthyN max_rows = true
    · have hm1 := truthyN_getD hm
      have := ceil_div_pos hn hc1
      simp [hc, hm]
      omega
    · have := ceil_div_pos hn hc1
      simp [hc, hm]
      omega
  · have hs := ceil_sqrt_pos hn
    have := ceil_div_pos hn hs
    simp [hc]
    omega

lemma gridShape_capacity {n : ℕ} (hn : 1 ≤ n) (columns max_rows : Option ℕ)
    (hcap : truthyN columns = true → truthyN max_rows = true →
      n ≤ columns.getD 0 * max_rows.getD 0) :
    n ≤ (gridShape n columns max_rows).1 * (gridShape n columns max_rows).2 := by
  unfold gridShape
  by_cases hc : truthyN columns = true
  · have hc1 := truthyN_getD hc
    by_cases hm : truthyN max_rows = true
    · have hcm := hcap hc hm
      have hq := le_mul_ceil_div (n := n) hc1
      simp only [hc, hm, if_true]
      rcases min_cases (max_rows.getD 0) (ceil_div n (columns.getD 0)) with
        ⟨hmin, _⟩ | ⟨hmin, _⟩ <;> rw [hmin] <;> nlinarith
    · have hq := le_mul_ceil_div (n := n) hc1
      simp [hc, hm]
      omega
  · have hs := ceil_sqrt_pos hn
    have hq := le_mul_ceil_div (n := n) hs
    simp [hc]
    omega

lemma autoSwap_mul (cols rows : ℕ) (aspect_ratio : ℚ) :
    (autoSwap cols rows aspect_ratio).1 * (autoSwap cols rows aspect_ratio).2
      = cols * rows := by
  simp only [autoSwap]
  split_ifs <;> simp [Nat.mul_comm]

lemma finalShape_capacity {n : ℕ} (hn : 1 ≤ n) (aspect_ratio : ℚ)
    (width height : Option ℤ) (columns max_rows : Option ℕ)
    (hcap : truthyN columns = true → truthyN max_rows = true →
      n ≤ columns.getD 0 * max_rows.getD 0) :
    n ≤ (finalShape n aspect_ratio width height columns max_rows).1 *
        (finalShape n aspect_ratio width height columns max_rows).2 := by
  unfold finalShape
  split
  · exact gridShape_capacity hn columns max_rows hcap
  · rw [autoSwap_mul]
    exact gridShape_capacity hn columns max_rows hcap

/-! ### Claims -/

/-- C1 counterexample: with `num_images = 10`, `columns = 2` and
`max_rows = 2`, the returned grid satisfies `cols * rows = 4 < 10`, so the
claim that `cols * rows ≥ num_images` holds for every constraint set
(including a `max_rows` cap) is false. -/
theorem grid_capacity_counterexample :
    (calculate_grid_layout 10 1 0 none none none (some 2) (some 2)).cols *
      (calculate_grid_layout 10 1 0 none none none (some 2) (some 2)).rows
        < 10 := by decide

/-- C1 (amended): for every `num_images ≥ 1` and every constraint set in
which, whenever `columns` and `max_rows` are both supplied,
`columns * max_rows ≥ num_images`, the layout returned by
`calculate_grid_layout` satisfies `cols * rows ≥ num_images`. -/
theorem grid_capacity (num_images : ℕ) (aspect_ratio : ℚ) (padding : ℤ)
    (size width height : Option ℤ) (columns max_rows : Option ℕ)
    (hn : 1 ≤ num_images)
    (hcap : truthyN columns = true → truthyN max_rows = true →
      num_images ≤ columns.getD 0 * max_rows.getD 0) :
    (num_images : ℤ) ≤
      (calculate_grid_layout num_images aspect_ratio padding size width height
        columns max_rows).cols *
      (calculate_grid_layout num_images aspect_ratio padding size width height
        columns max_rows).rows := by
  have h := finalShape_capacity hn aspect_ratio width height columns max_rows hcap
  unfold calculate_grid_layout
  push_cast
  exact_mod_cast h

/-- Witness for C1 (amended) at `num_images = 10`, `columns = 2`,
`max_rows = 5`. -/
theorem grid_capacity_witness :
    (10 : ℤ) ≤ (calculate_grid_layout 10 1 0 none none none (some 2)
        (some 5)).cols *
      (calculate_grid_layout 10 1 0 none none none (some 2) (some 5)).rows :=
  grid_capacity 10 1 0 none none none (some 2) (some 5) (by decide) (by decide)

/-- C2: whenever the caller does not supply an explicit `height`, the
returned layout satisfies
`canvas_height = rows * cell_height + (rows + 1) * padding` exactly, in every
canvas-sizing branch. -/
theorem height_reconciliation (num_images : ℕ) (aspect_ratio : ℚ)
    (padding : ℤ) (size width : Option ℤ) (columns max_rows : Option ℕ) :
    (calculate_grid_layout num_images aspect_ratio padding size width none
        columns max_rows).canvas_height =
      (calculate_grid_layout num_images aspect_ratio padding size width none
        columns max_rows).rows *
      (calculate_grid_layout num_images aspect_ratio padding size width none
        columns max_rows).cell_height +
      ((calculate_grid_layout num_images aspect_ratio padding size width none
        columns max_rows).rows + 1) *
      (calculate_grid_layout num_images aspect_ratio padding size width none
        columns max_rows).padding := rfl

/-- C3: when both `width ≥ 1` and `height ≥ 1` are supplied, the returned
canvas dimensions equal the supplied values exactly, unaltered by the final
normalization steps. -/
theorem explicit_dims (num_images : ℕ) (aspect_ratio : ℚ) (padding : ℤ)
    (size : Option ℤ) (w h : ℤ) (columns max_rows : Option ℕ)
    (hw : 1 ≤ w) (hh : 1 ≤ h) :
    (calculate_grid_layout num_images aspect_ratio padding size (some w)
        (some h) columns max_rows).canvas_width = w ∧
    (calculate_grid_layout num_images aspect_ratio padding size (some w)
        (some h) columns max_rows).canvas_height = h := by
  have hwt : truthyZ (some w) = true := by
    simp only [truthyZ, bne_iff_ne, ne_eq, decide_eq_true_eq]
    omega
  have hht : truthyZ (some h) = true := by
    simp only [truthyZ, bne_iff_ne, ne_eq, decide_eq_true_eq]
    omega
  unfold calculate_grid_layout canvasDims
  simp [hwt, hht]

/-- Witness for C3 at `width = 640`, `height = 480`. -/
theorem explicit_dims_witness :
    (calculate_grid_layout 6 1 5 none (some 640) (some 480) none
        none).canvas_width = 640 ∧
    (calculate_grid_layout 6 1 5 none (some 640) (some 480) none
        none).canvas_height = 480 :=
  explicit_dims 6 1 5 none 640 480 none none (by decide) (by decide)

/-- C5: there are inputs satisfying all stated preconditions
(`num_images ≥ 1`, `aspect_ratio > 0`, `padding ≥ 0`) — here a padding of
10000 on a 100×100 canvas — for which `calculate_grid_layout` returns a
degenerate layout with `cell_width ≤ 0` and `cell_height ≤ 0`; the function
is total (no error is raised), the degenerate branch is not guarded. -/
theorem degenerate_layout_unguarded :
    (1 : ℕ) ≤ 1 ∧ (0 : ℚ) < 1 ∧ (0 : ℤ) ≤ 10000 ∧
    (calculate_grid_layout 1 1 10000 none (some 100) (some 100) none
      none).cell_width ≤ 0 ∧
    (calculate_grid_layout 1 1 10000 none (some 100) (some 100) none
      none).cell_height ≤ 0 := by
  refine ⟨le_refl 1, by norm_num, by norm_num, by decide, ?_⟩
  norm_num [calculate_grid_layout, canvasDims, finalShape, gridShape,
    ceil_div, ceil_sqrt, truthyZ, truthyN, pyInt, Int.ceil_le]

/-- C7: `sample_images` returns the input list unchanged when it already
fits (`len ≤ max_count`), and returns exactly the first `max_count` items
when `max_count < 2 < len`. -/
theorem sample_small_cases {α : Type} [Inhabited α] (images : List α)
    (max_count : ℕ) :
    (images.length ≤ max_count → sample_images images max_count = images) ∧
    (max_count < 2 → max_count < images.length →
      sample_images images max_count = images.take max_count) := by
  constructor
  · intro h
    unfold sample_images
    rw [if_pos h]
  · intro h2 hlen
    unfold sample_images
    rw [if_neg (by omega), if_pos h2]

/-- Witness for C7: identity on a 3-element list with cap 5, and
first-`max_count` truncation with cap 1. -/
theorem sample_small_cases_witness :
    sample_images ([10, 11, 12] : List ℕ) 5 = [10, 11, 12] ∧
    sample_images ([10, 11, 12] : List ℕ) 1 = [10] :=
  ⟨(sample_small_cases [10, 11, 12] 5).1 (by decide),
   by
    have h := (sample_small_cases ([10, 11, 12] : List ℕ) 1).2 (by decide)
      (by decide)
    simpa using h⟩

lemma sample_step_gt_one {n k : ℕ} (hk : 3 ≤ k) (hnk : k < n) :
    1 < ((n : ℚ) - 2) / ((k : ℚ) - 2) := by
  have hk3 : (3 : ℚ) ≤ (k : ℚ) := by exact_mod_cast hk
  have hkn : (k : ℚ) < (n : ℚ) := by exact_mod_cast hnk
  rw [one_lt_div (by linarith)]
  linarith

lemma sampleIdx_eq_floor {n k : ℕ} (hk : 3 ≤ k) (hnk : k < n) (i : ℕ) :
    sampleIdx n k i =
      ⌊1 + (i : ℚ) * (((n : ℚ) - 2) / ((k : ℚ) - 2)) +
        (((n : ℚ) - 2) / ((k : ℚ) - 2)) / 2⌋ := by
  have hstep := sample_step_gt_one hk hnk
  have hmul : (0 : ℚ) ≤ (i : ℚ) * (((n : ℚ) - 2) / ((k : ℚ) - 2)) :=
    mul_nonneg (by positivity) (by linarith)
  simp only [sampleIdx, pyInt]
  rw [if_pos (by linarith)]

lemma sampleIdx_lb {n k : ℕ} (hk : 3 ≤ k) (hnk : k < n) (i : ℕ) :
    1 ≤ sampleIdx n k i := by
  rw [sampleIdx_eq_floor hk hnk]
  have hstep := sample_step_gt_one hk hnk
  have hmul : (0 : ℚ) ≤ (i : ℚ) * (((n : ℚ) - 2) / ((k : ℚ) - 2)) :=
    mul_nonneg (by positivity) (by linarith)
  rw [Int.le_floor]
  push_cast
  linarith

lemma sampleIdx_ub {n k : ℕ} (hk : 3 ≤ k) (hnk : k < n) {i : ℕ}
    (hi : i < k - 2) : sampleIdx n k i < (n : ℤ) - 1 := by
  rw [sampleIdx_eq_floor hk hnk]
  have hstep := sample_step_gt_one hk hnk
  have hk2 : (0 : ℚ) < (k : ℚ) - 2 := by
    have : (3 : ℚ) ≤ (k : ℚ) := by exact_mod_cast hk
    linarith
  have hiq : (i : ℚ) ≤ (k : ℚ) - 3 := by
    have h3 : (i : ℕ) + 3 ≤ k := by omega
    have := (Nat.cast_le (α := ℚ)).mpr h3
    push_cast at this
    linarith
  have key : ((k : ℚ) - 2) * (((n : ℚ) - 2) / ((k : ℚ) - 2)) = (n : ℚ) - 2 := by
    field_simp
  have h1 : (i : ℚ) * (((n : ℚ) - 2) / ((k : ℚ) - 2)) ≤
      ((k : ℚ) - 3) * (((n : ℚ) - 2) / ((k : ℚ) - 2)) :=
    mul_le_mul_of_nonneg_right hiq (by linarith)
  rw [Int.floor_lt]
  push_cast
  nlinarith

lemma sampleIdx_strictMono {n k : ℕ} (hk : 3 ≤ k) (hnk : k < n) {i j : ℕ}
    (hij : i < j) : sampleIdx n k i < sampleIdx n k j := by
  rw [sampleIdx_eq_floor hk hnk, sampleIdx_eq_floor hk hnk]
  have hstep := sample_step_gt_one hk hnk
  have hij1 : (i : ℚ) + 1 ≤ (j : ℚ) := by exact_mod_cast hij
  have hfl : (⌊1 + (i : ℚ) * (((n : ℚ) - 2) / ((k : ℚ) - 2)) +
      (((n : ℚ) - 2) / ((k : ℚ) - 2)) / 2⌋ : ℚ) ≤
      1 + (i : ℚ) * (((n : ℚ) - 2) / ((k : ℚ) - 2)) +
      (((n : ℚ) - 2) / ((k : ℚ) - 2)) / 2 := Int.floor_le _
  have h1 : (0 : ℚ) ≤ ((j : ℚ) - (i : ℚ) - 1) * (((n : ℚ) - 2) / ((k : ℚ) - 2)) :=
    mul_nonneg (by linarith) (by linarith)
  rw [Int.lt_iff_add_one_le, Int.le_floor]
  push_cast
  nlinarith

lemma sampleIndices_eq_map {n k : ℕ} (hk : 3 ≤ k) (hnk : k < n) :
    sampleIndices n k = (List.range (k - 2)).map (sampleIdx n k) := by
  unfold sampleIndices
  rw [List.filterMap_congr (g := fun i => some (sampleIdx n k i)) ?_]
  · exact congrFun (List.filterMap_eq_map _) _
  · intro i hi
    dsimp only
    rw [if_pos (sampleIdx_ub hk hnk (List.mem_range.mp hi))]

lemma sample_images_length {α : Type} [Inhabited α] (images : List α)
    (k : ℕ) (h : k < images.length) : (sample_images images k).length = k := by
  unfold sample_images
  rw [if_neg (by omega)]
  by_cases h2 : k < 2
  · rw [if_pos h2, List.length_take]
    omega
  · rw [if_neg h2]
    by_cases h3 : 2 < k
    · rw [if_pos h3, sampleIndices_eq_map (by omega) h]
      simp
      omega
    · have hk2 : k = 2 := by omega
      subst hk2
      simp

/-- C4: for every list with `len(images) > k ≥ 2`, `sample_images images k`
has length exactly `k` and contains both the first and the last element of
the input. -/
theorem sample_first_last {α : Type} [Inhabited α] (images : List α) (k : ℕ)
    (hk : 2 ≤ k) (hlen : k < images.length) :
    (sample_images images k).length = k ∧
    images.headD default ∈ sample_images images k ∧
    images.getLastD default ∈ sample_images images k := by
  refine ⟨sample_images_length images k hlen, ?_, ?_⟩ <;>
  · unfold sample_images
    rw [if_neg (by omega), if_neg (by omega)]
    simp

/-- Witness for C4 on `[0, 1, 2, 3]` with `k = 2`. -/
theorem sample_first_last_witness :
    (sample_images ([0, 1, 2, 3] : List ℕ) 2).length = 2 ∧
    ([0, 1, 2, 3] : List ℕ).headD default ∈
      sample_images ([0, 1, 2, 3] : List ℕ) 2 ∧
    ([0, 1, 2, 3] : List ℕ).getLastD default ∈
      sample_images ([0, 1, 2, 3] : List ℕ) 2 :=
  sample_first_last [0, 1, 2, 3] 2 (by decide) (by decide)

/-- C9: for `n > k ≥ 3`, every interior index computed by the sampling loop
lies in `[1, n - 2]`, the indices are strictly increasing in the iteration
counter, and consequently the defensive clamp `idx < n - 1` never discards
an index: the kept index list is exactly the full map, pairwise strictly
increasing (no duplicates occur). -/
theorem sample_interior_indices (n k : ℕ) (hk : 3 ≤ k) (hnk : k < n) :
    sampleIndices n k = (List.range (k - 2)).map (sampleIdx n k) ∧
    (∀ i, i < k - 2 → 1 ≤ sampleIdx n k i ∧ sampleIdx n k i ≤ (n : ℤ) - 2) ∧
    (∀ i j, i < j → sampleIdx n k i < sampleIdx n k j) ∧
    (sampleIndices n k).Pairwise (fun a b => a < b) := by
  refine ⟨sampleIndices_eq_map hk hnk, ?_, ?_, ?_⟩
  · intro i hi
    have := sampleIdx_ub hk hnk hi
    exact ⟨sampleIdx_lb hk hnk i, by omega⟩
  · intro i j hij
    exact sampleIdx_strictMono hk hnk hij
  · rw [sampleIndices_eq_map hk hnk]
    exact (List.pairwise_lt_range _).map _
      (fun a b hab => sampleIdx_strictMono hk hnk hab)

/-- Witness for C9 at `n = 10`, `k = 5`. -/
theorem sample_interior_indices_witness :
    sampleIndices 10 5 = (List.range 3).map (sampleIdx 10 5) ∧
    1 ≤ sampleIdx 10 5 0 ∧ sampleIdx 10 5 0 ≤ (10 : ℤ) - 2 :=
  ⟨(sample_interior_indices 10 5 (by decide) (by decide)).1,
   ((sample_interior_indices 10 5 (by decide) (by decide)).2.1 0 (by decide)).1,
   ((sample_interior_indices 10 5 (by decide) (by decide)).2.1 0 (by decide)).2⟩

/-- C6: `apply_image_sampling` samples exactly when both `columns` and
`max_rows` are truthy and the list exceeds `columns * max_rows`; in that case
the list is strictly reduced, otherwise it is returned unchanged with
`is_sampled = false`; supplying `max_rows` without `columns` is the only case
that emits the warning. -/
theorem sampling_policy {α : Type} [Inhabited α] (images : List α)
    (columns max_rows : Option ℕ) :
    ((apply_image_sampling images columns max_rows).is_sampled = true ↔
      truthyN columns = true ∧ truthyN max_rows = true ∧
        columns.getD 0 * max_rows.getD 0 < images.length) ∧
    ((apply_image_sampling images columns max_rows).is_sampled = true →
      (apply_image_sampling images columns max_rows).files.length <
        images.length) ∧
    ((apply_image_sampling images columns max_rows).is_sampled = false →
      (apply_image_sampling images columns max_rows).files = images) ∧
    ((apply_image_sampling images columns max_rows).warned = true ↔
      truthyN max_rows = true ∧ truthyN columns = false) := by
  unfold apply_image_sampling
  by_cases hm : truthyN max_rows = true <;>
    by_cases hc : truthyN columns = true
  · by_cases hlt : columns.getD 0 * max_rows.getD 0 < images.length
    · have hl := sample_images_length images
        (columns.getD 0 * max_rows.getD 0) hlt
      simp [hm, hc, hlt, hl]
    · simp [hm, hc, hlt]
  · rw [Bool.not_eq_true] at hc
    simp [hm, hc]
  · rw [Bool.not_eq_true] at hm
    simp [hm, hc]
  · rw [Bool.not_eq_true] at hm
    rw [Bool.not_eq_true] at hc
    simp [hm, hc]

/-- Witness for C6: `max_rows` without `columns` warns and leaves the list
unchanged. -/
theorem sampling_policy_witness :
    ((apply_image_sampling ([7, 8, 9] : List ℕ) none (some 1)).warned = true) ∧
    (apply_image_sampling ([7, 8, 9] : List ℕ) none (some 1)).files =
      [7, 8, 9] :=
  ⟨(sampling_policy [7, 8, 9] none (some 1)).2.2.2.mpr (by decide),
   (sampling_policy [7, 8, 9] none (some 1)).2.2.1 (by decide)⟩

/-- C10: with an explicit `height ≥ 1`, no `width`, a positive aspect ratio,
nonnegative padding and a positive derived cell height, the final grid still
fits inside the authoritative canvas height:
`rows * cell_height + (rows + 1) * padding ≤ canvas_height = height`, even
after the final cell-size normalization recomputes `cell_height` from
`cell_width` and the aspect ratio. -/
theorem explicit_height_fits (num_images : ℕ) (aspect_ratio : ℚ)
    (padding h : ℤ) (size : Option ℤ) (columns max_rows : Option ℕ)
    (hn : 1 ≤ num_images) (har : 0 < aspect_ratio) (hp : 0 ≤ padding)
    (hh : 1 ≤ h)
    (hch : 1 ≤ Int.fdiv
      (h - (((gridShape num_images columns max_rows).2 : ℤ) + 1) * padding)
      ((gridShape num_images columns max_rows).2 : ℤ)) :
    (calculate_grid_layout num_images aspect_ratio padding size none (some h)
        columns max_rows).canvas_height = h ∧
    (calculate_grid_layout num_images aspect_ratio padding size none (some h)
        columns max_rows).rows *
      (calculate_grid_layout num_images aspect_ratio padding size none (some h)
        columns max_rows).cell_height +
      ((calculate_grid_layout num_images aspect_ratio padding size none
        (some h) columns max_rows).rows + 1) *
      (calculate_grid_layout num_images aspect_ratio padding size none (some h)
        columns max_rows).padding ≤ h := by
  obtain ⟨hc1, hr1⟩ := gridShape_pos hn columns max_rows
  have hht : truthyZ (some h) = true := by
    simp only [truthyZ, bne_iff_ne, ne_eq, decide_eq_true_eq]
    omega
  have hfs : finalShape num_images aspect_ratio none (some h) columns max_rows
      = gridShape num_images columns max_rows := by
    simp [finalShape, hht]
  set cn := (gridShape num_images columns max_rows).1 with hcn
  set rn := (gridShape num_images columns max_rows).2 with hrn
  set ch0 : ℤ := Int.fdiv (h - ((rn : ℤ) + 1) * padding) (rn : ℤ) with hch0
  set cw0 : ℤ := pyInt ((ch0 : ℚ) * aspect_ratio) with hcw0
  have hcpos : (0 : ℤ) < (cn : ℤ) := by exact_mod_cast hc1
  have hrpos : (0 : ℤ) < (rn : ℤ) := by exact_mod_cast hr1
  -- the truncations only shrink the cell height
  have hcw0_eq : cw0 = ⌊(ch0 : ℚ) * aspect_ratio⌋ := by
    rw [hcw0]
    unfold pyInt
    rw [if_pos]
    have : (1 : ℚ) ≤ (ch0 : ℚ) := by exact_mod_cast hch
    nlinarith
  have hcw0_nonneg : 0 ≤ cw0 := by
    rw [hcw0_eq, Int.floor_nonneg]
    have : (1 : ℚ) ≤ (ch0 : ℚ) := by exact_mod_cast hch
    nlinarith
  have hcw0_le : (cw0 : ℚ) ≤ (ch0 : ℚ) * aspect_ratio := by
    rw [hcw0_eq]
    exact Int.floor_le _
  have hcell_le : pyInt ((cw0 : ℚ) / aspect_ratio) ≤ ch0 := by
    unfold pyInt
    rw [if_pos (by positivity)]
    have hdiv : (cw0 : ℚ) / aspect_ratio ≤ ((ch0 : ℤ) : ℚ) := by
      rw [div_le_iff₀ har]
      exact hcw0_le
    calc ⌊(cw0 : ℚ) / aspect_ratio⌋ ≤ ⌊((ch0 : ℤ) : ℚ)⌋ := Int.floor_mono hdiv
      _ = ch0 := Int.floor_intCast ch0
  have hch0_le : ch0 * (rn : ℤ) ≤ h - ((rn : ℤ) + 1) * padding := by
    rw [hch0, Int.fdiv_eq_ediv _ (le_of_lt hrpos)]
    exact Int.ediv_mul_le _ (ne_of_gt hrpos)
  -- reduce the layout projections
  have hred : calculate_grid_layout num_images aspect_ratio padding size none
      (some h) columns max_rows =
      GridLayout.mk ((cn : ℤ) * cw0 + ((cn : ℤ) + 1) * padding) h (cn : ℤ)
        (rn : ℤ) cw0 (pyInt ((cw0 : ℚ) / aspect_ratio)) padding 0 0 := by
    have hbt : (h != 0) = true := by
      simp only [bne_iff_ne, ne_eq, decide_eq_true_eq]
      omega
    unfold calculate_grid_layout canvasDims
    rw [hfs]
    simp [truthyZ, hbt, ← hch0, ← hcw0]
    refine ⟨Int.mul_fdiv_cancel_left _ (ne_of_gt hcpos), ?_⟩
    rw [Int.mul_fdiv_cancel_left _ (ne_of_gt hcpos)]
  rw [hred]
  refine ⟨rfl, ?_⟩
  have hmul : (rn : ℤ) * pyInt ((cw0 : ℚ) / aspect_ratio) ≤ (rn : ℤ) * ch0 :=
    mul_le_mul_of_nonneg_left hcell_le (le_of_lt hrpos)
  simp only []
  nlinarith [hch0_le]

/-- Witness for C10 at `num_images = 4`, `aspect_ratio = 1`, `padding = 0`,
`height = 100`, `columns = 2`. -/
theorem explicit_height_fits_witness :
    (calculate_grid_layout 4 1 0 none none (some 100) (some 2)
        none).canvas_height = 100 ∧
    (calculate_grid_layout 4 1 0 none none (some 100) (some 2) none).rows *
      (calculate_grid_layout 4 1 0 none none (some 100) (some 2)
        none).cell_height +
      ((calculate_grid_layout 4 1 0 none none (some 100) (some 2) none).rows
        + 1) *
      (calculate_grid_layout 4 1 0 none none (some 100) (some 2)
        none).padding ≤ 100 :=
  explicit_height_fits 4 1 0 100 none (some 2) none (by decide) (by norm_num)
    (by decide) (by decide) (by decide)

lemma mem_firstOccurrences {y : ℚ} :
    ∀ {l : List ℚ}, y ∈ firstOccurrences l ↔ y ∈ l := by
  intro l
  induction l with
  | nil => simp [firstOccurrences]
  | cons x xs ih =>
    simp only [firstOccurrences, List.mem_cons, List.mem_filter, bne_iff_ne,
      ne_eq, decide_eq_true_eq]
    constructor
    · rintro (rfl | ⟨hy, _⟩)
      · exact Or.inl rfl
      · exact Or.inr (ih.mp hy)
    · rintro (rfl | hy)
      · exact Or.inl rfl
      · by_cases hxy : y = x
        · exact Or.inl hxy
        · exact Or.inr ⟨ih.mpr hy, hxy⟩

lemma argmaxCount_mem (l : List ℚ) : ∀ (cand : List ℚ) (best : ℚ),
    argmaxCount l cand best ∈ best :: cand := by
  intro cand
  induction cand with
  | nil => intro best; simp [argmaxCount]
  | cons y ys ih =>
    intro best
    unfold argmaxCount
    split
    · have := ih y
      simp only [List.mem_cons] at this ⊢
      tauto
    · have := ih best
      simp only [List.mem_cons] at this ⊢
      tauto

lemma argmaxCount_le (l : List ℚ) : ∀ (cand : List ℚ) (best : ℚ),
    l.count best ≤ l.count (argmaxCount l cand best) ∧
    ∀ x ∈ cand, l.count x ≤ l.count (argmaxCount l cand best) := by
  intro cand
  induction cand with
  | nil => intro best; exact ⟨le_refl _, by simp⟩
  | cons y ys ih =>
    intro best
    unfold argmaxCount
    split
    · rename_i hlt
      obtain ⟨h1, h2⟩ := ih y
      refine ⟨le_trans (le_of_lt hlt) h1, ?_⟩
      intro x hx
      rcases List.mem_cons.mp hx with rfl | hx
      · exact h1
      · exact h2 x hx
    · rename_i hlt
      push_neg at hlt
      obtain ⟨h1, h2⟩ := ih best
      refine ⟨h1, ?_⟩
      intro x hx
      rcases List.mem_cons.mp hx with rfl | hx
      · exact le_trans hlt h1
      · exact h2 x hx

lemma mostCommon_spec {l : List ℚ} (h : l ≠ []) :
    mostCommon l ∈ l ∧ ∀ x ∈ l, l.count x ≤ l.count (mostCommon l) := by
  unfold mostCommon
  cases hl : firstOccurrences l with
  | nil =>
    cases l with
    | nil => exact absurd rfl h
    | cons a t => simp [firstOccurrences] at hl
  | cons a t =>
    constructor
    · have hm := argmaxCount_mem l t a
      have : argmaxCount l t a ∈ firstOccurrences l := by
        rw [hl]
        exact hm
      exact mem_firstOccurrences.mp this
    · intro x hx
      have hxf : x ∈ firstOccurrences l := mem_firstOccurrences.mpr hx
      rw [hl] at hxf
      rcases List.mem_cons.mp hxf with rfl | hxt
      · exact (argmaxCount_le l t x).1
      · exact (argmaxCount_le l t a).2 x hxt

lemma closestKey_mem (m : ℚ) : ∀ (ks : List ℚ) (best : ℚ),
    closestKey m ks best ∈ best :: ks := by
  intro ks
  induction ks with
  | nil => intro best; simp [closestKey]
  | cons y ys ih =>
    intro best
    unfold closestKey
    split
    · have := ih y
      simp only [List.mem_cons] at this ⊢
      tauto
    · have := ih best
      simp only [List.mem_cons] at this ⊢
      tauto

lemma closestKey_le (m : ℚ) : ∀ (ks : List ℚ) (best : ℚ),
    |closestKey m ks best - m| ≤ |best - m| ∧
    ∀ k ∈ ks, |closestKey m ks best - m| ≤ |k - m| := by
  intro ks
  induction ks with
  | nil => intro best; exact ⟨le_refl _, by simp⟩
  | cons y ys ih =>
    intro best
    unfold closestKey
    split
    · rename_i hlt
      obtain ⟨h1, h2⟩ := ih y
      refine ⟨le_trans h1 (le_of_lt hlt), ?_⟩
      intro k hk
      rcases List.mem_cons.mp hk with rfl | hk
      · exact h1
      · exact h2 k hk
    · rename_i hlt
      push_neg at hlt
      obtain ⟨h1, h2⟩ := ih best
      refine ⟨h1, ?_⟩
      intro k hk
      rcases List.mem_cons.mp hk with rfl | hk
      · exact le_trans h1 hlt
      · exact h2 k hk

lemma closestKey_stays (m best : ℚ) : ∀ ks : List ℚ,
    (∀ k ∈ ks, ¬ |k - m| < |best - m|) → closestKey m ks best = best := by
  intro ks
  induction ks with
  | nil => intro _; rfl
  | cons y ys ih =>
    intro h
    unfold closestKey
    rw [if_neg (h y (List.mem_cons_self y ys))]
    exact ih (fun k hk => h k (List.mem_cons.mpr (Or.inr hk)))

lemma lookup_common_ratios {k : ℚ}
    (hk : k ∈ common_ratios.map Prod.fst) :
    ∃ p, dict_lookup k common_ratios = some p := by
  fin_cases hk <;>
    norm_num [common_ratios, dict_lookup]

/-- C8: for every non-empty list of collected 2-decimal-rounded aspect
ratios, the estimator returns the modal ratio (maximal count, ties broken by
first occurrence), reports the canonical integer pair of the fixed table
exactly when the modal ratio is within 0.1 of a table key, and otherwise the
raw ratio paired with 1; in particular `[1.33, 1.33, 1.78, 1.33, 1.00]`
yields modal ratio `1.33` and pair `(4, 3)`. -/
theorem aspect_ratio_estimator (rs : List ℚ) (hne : rs ≠ []) :
    (determine_common_aspect_ratio rs).2.2 ∈ rs ∧
    (∀ x ∈ rs, rs.count x ≤ rs.count (determine_common_aspect_ratio rs).2.2) ∧
    ((∃ k ∈ common_ratios.map Prod.fst,
        |k - (determine_common_aspect_ratio rs).2.2| < 1/10) →
      ∃ k ∈ common_ratios.map Prod.fst,
        |k - (determine_common_aspect_ratio rs).2.2| < 1/10 ∧
        dict_lookup k common_ratios =
          some ((determine_common_aspect_ratio rs).1,
            (determine_common_aspect_ratio rs).2.1)) ∧
    ((∀ k ∈ common_ratios.map Prod.fst,
        ¬ |k - (determine_common_aspect_ratio rs).2.2| < 1/10) →
      (determine_common_aspect_ratio rs).1 =
          (determine_common_aspect_ratio rs).2.2 ∧
        (determine_common_aspect_ratio rs).2.1 = 1) ∧
    determine_common_aspect_ratio [1.33, 1.33, 1.78, 1.33, 1.00] =
      (4, 3, 1.33) := by
  have hf : firstOccurrences [1.33, 1.33, 1.78, 1.33, 1.00] =
      [1.33, 1.78, 1.00] := by
    norm_num [firstOccurrences, List.filter_cons]
  have hmc : mostCommon [1.33, 1.33, 1.78, 1.33, 1.00] = 1.33 := by
    simp only [mostCommon, hf]
    norm_num [argmaxCount, List.count_cons]
  have hstay : closestKey (1.33 : ℚ)
      [(1.78 : ℚ), 1.77, 1.60, 1.50, 1.00, 0.75, 0.67, 0.56] 1.33 = 1.33 := by
    apply closestKey_stays
    intro k hk
    fin_cases hk <;> norm_num
  have hconc : determine_common_aspect_ratio [1.33, 1.33, 1.78, 1.33, 1.00] =
      (4, 3, 1.33) := by
    simp only [determine_common_aspect_ratio, hmc, hstay]
    norm_num [dict_lookup, common_ratios]
  obtain ⟨hmem, hcnt⟩ := mostCommon_spec hne
  have hkeys : common_ratios.map Prod.fst =
      1.33 :: [(1.78 : ℚ), 1.77, 1.60, 1.50, 1.00, 0.75, 0.67, 0.56] := rfl
  have hckmem : closestKey (mostCommon rs)
      [(1.78 : ℚ), 1.77, 1.60, 1.50, 1.00, 0.75, 0.67, 0.56] 1.33 ∈
      common_ratios.map Prod.fst := by
    rw [hkeys]
    exact closestKey_mem (mostCommon rs) _ 1.33
  have hckle := closestKey_le (mostCommon rs)
      [(1.78 : ℚ), 1.77, 1.60, 1.50, 1.00, 0.75, 0.67, 0.56] 1.33
  by_cases hcond : |closestKey (mostCommon rs)
      [(1.78 : ℚ), 1.77, 1.60, 1.50, 1.00, 0.75, 0.67, 0.56] 1.33 -
      mostCommon rs| < 1/10
  · obtain ⟨p, hp⟩ := lookup_common_ratios hckmem
    have hdet : determine_common_aspect_ratio rs =
        (p.1, p.2, mostCommon rs) := by
      simp only [determine_common_aspect_ratio]
      rw [if_pos hcond, hp]
      rfl
    rw [hdet]
    refine ⟨hmem, hcnt, ?_, ?_, hconc⟩
    · intro _
      exact ⟨_, hckmem, hcond, by rw [hp]⟩
    · intro hall
      exact absurd hcond (hall _ hckmem)
  · have hdet : determine_common_aspect_ratio rs =
        (mostCommon rs, 1, mostCommon rs) := by
      simp only [determine_common_aspect_ratio]
      rw [if_neg hcond]
    rw [hdet]
    refine ⟨hmem, hcnt, ?_, fun _ => ⟨rfl, rfl⟩, hconc⟩
    intro hex
    obtain ⟨k, hk, hklt⟩ := hex
    rw [hkeys] at hk
    rcases List.mem_cons.mp hk with rfl | hk
    · exact absurd (lt_of_le_of_lt hckle.1 hklt) hcond
    · exact absurd (lt_of_le_of_lt (hckle.2 k hk) hklt) hcond

/-- Witness for C8 on the concrete ratio list from the spec. -/
theorem aspect_ratio_estimator_witness :
    (determine_common_aspect_ratio
        [1.33, 1.33, 1.78, 1.33, 1.00]).2.2 ∈
      ([1.33, 1.33, 1.78, 1.33, 1.00] : List ℚ) ∧
    determine_common_aspect_ratio [1.33, 1.33, 1.78, 1.33, 1.00] =
      (4, 3, 1.33) :=
  ⟨(aspect_ratio_estimator [1.33, 1.33, 1.78, 1.33, 1.00]
      (by simp)).1,
   (aspect_ratio_estimator [1.33, 1.33, 1.78, 1.33, 1.00]
      (by simp)).2.2.2.2⟩

end Mkcollage
